import Mathlib

/-!
Verification of the tic-tac-toe core logic from
src/tic_tac_toe_frontend/src/App.js: the win/draw detection function
(calculateWinner, the derived isDraw flag) and the controller state
(squares, xIsNext, handleSquareClick, resetGame), embedded shallowly.
Cells are Option Mark with none standing for the JS null; boards are
lists of cells; out-of-range JS array reads yield undefined, which is
falsy like null and hence also modelled by none.
-/

namespace TicTacToe

/-- One of the two player marks, the JS strings X and O. -/
inductive Mark where
  | X
  | O
deriving DecidableEq, Repr

/-- One board cell: none is the empty cell (JS null). -/
abbrev Cell := Option Mark

/-- Board cell read with JS semantics: squares[i] is undefined out of
range, and undefined, like null, is falsy and compares equal to no
mark, so both are modelled as none. -/
def cellAt (squares : List Cell) (i : Nat) : Cell :=
  squares.getD i none

/-- The eight winning index triples, three rows, three columns, two
diagonals, in the order of the LINES constant in App.js. -/
def LINES : List (Nat × Nat × Nat) :=
  [(0, 1, 2), (3, 4, 5), (6, 7, 8),
   (0, 3, 6), (1, 4, 7), (2, 5, 8),
   (0, 4, 8), (2, 4, 6)]

/-- Models the loop body test of calculateWinner for one triple
(a, b, c): squares[a] && squares[a] === squares[b] && squares[a] ===
squares[c]. -/
def lineWins (squares : List Cell) (t : Nat × Nat × Nat) : Bool :=
  match cellAt squares t.1 with
  | none => false
  | some m => decide (cellAt squares t.2.1 = some m ∧ cellAt squares t.2.2 = some m)

/-- The for-loop of calculateWinner over a list of triples: the first
triple whose three cells are equal and non-empty is returned with its
mark; otherwise none. -/
def winnerOfLines (squares : List Cell) : List (Nat × Nat × Nat) → Option (Mark × (Nat × Nat × Nat))
  | [] => none
  | t :: rest =>
    match cellAt squares t.1 with
    | none => winnerOfLines squares rest
    | some m =>
      if cellAt squares t.2.1 = some m ∧ cellAt squares t.2.2 = some m then
        some (m, t)
      else
        winnerOfLines squares rest

/-- Models calculateWinner from App.js (lines 26 to 34): none models
the JS result with winner null and empty line, and some (m, t) models
the result carrying winner m and winning line t. -/
def calculateWinner (squares : List Cell) : Option (Mark × (Nat × Nat × Nat)) :=
  winnerOfLines squares LINES

/-- The verdict of a board, the Win, Draw, Ongoing classification the
spec calls the result of evaluate. -/
inductive Verdict where
  | ongoing
  | win (m : Mark) (t : Nat × Nat × Nat)
  | draw
deriving DecidableEq, Repr

/-- Models squares.every (s different from null) from the isDraw
computation in App.js line 88. -/
def allFilled (squares : List Cell) : Bool :=
  squares.all fun s => decide (s ≠ none)

/-- The derived verdict of App.js: the winner computed on line 87
gives a win, else the isDraw flag of line 88 gives a draw, else the
game is ongoing, exactly as the status string of lines 90 to 94
projects the state. -/
def verdict (squares : List Cell) : Verdict :=
  match calculateWinner squares with
  | some (m, t) => Verdict.win m t
  | none => if allFilled squares then Verdict.draw else Verdict.ongoing

/-- The controller state of App.js: the squares array and the xIsNext
flag (xIsNext true means MarkX is the current turn). The verdict is
derived from squares, never stored. -/
structure GameState where
  squares : List Cell
  xIsNext : Bool
deriving DecidableEq, Repr

/-- The initial state of App.js lines 84 and 85: nine null cells and
xIsNext true. -/
def initialState : GameState :=
  { squares := List.replicate 9 none, xIsNext := true }

/-- The mark placed by the current turn: xIsNext picks X, else O
(App.js line 104). -/
def currentMark (xIsNext : Bool) : Cell :=
  if xIsNext then some Mark.X else some Mark.O

/-- JS array element assignment next[i] = v on a copy of the board: in
range it overwrites the cell; at or past the end it grows the array,
the skipped holes reading back as undefined, that is none. -/
def jsSet (l : List Cell) (i : Nat) (v : Cell) : List Cell :=
  if i < l.length then l.set i v
  else l ++ List.replicate (i - l.length) none ++ [v]

/-- Models handleSquareClick from App.js lines 101 to 107: if the
clicked cell is truthy (non-empty) or a winner exists, ignore the
click; otherwise place the current mark at index i and negate
xIsNext. -/
def handleSquareClick (i : Nat) (s : GameState) : GameState :=
  if (cellAt s.squares i).isSome || (calculateWinner s.squares).isSome then s
  else { squares := jsSet s.squares i (currentMark s.xIsNext), xIsNext := !s.xIsNext }

/-- Models resetGame from App.js lines 110 to 114: unconditionally
restore nine null cells and xIsNext true. -/
def resetGame (_s : GameState) : GameState :=
  { squares := List.replicate 9 none, xIsNext := true }

/-- Number of cells of the board carrying the given mark. -/
def countMark (m : Mark) (squares : List Cell) : Nat :=
  squares.countP fun c => decide (c = some m)

/-- States reachable from the initial state through square clicks with
indices in the range 0 to 8 and resets. -/
inductive Reachable : GameState → Prop where
  | init : Reachable initialState
  | move (i : Nat) (hi : i ≤ 8) {s : GameState} (h : Reachable s) :
      Reachable (handleSquareClick i s)
  | reset {s : GameState} (h : Reachable s) : Reachable (resetGame s)

/-! Helper lemmas relating the loop of calculateWinner to the first
triple satisfying lineWins. -/

theorem lineWins_cell {squares : List Cell} {t : Nat × Nat × Nat}
    (h : lineWins squares t = true) : ∃ m, cellAt squares t.1 = some m := by
  unfold lineWins at h
  cases hc : cellAt squares t.1 with
  | none => rw [hc] at h; exact absurd h (by simp)
  | some m => exact ⟨m, rfl⟩

theorem winnerOfLines_eq_find (squares : List Cell) :
    ∀ lines : List (Nat × Nat × Nat),
      winnerOfLines squares lines =
        (lines.find? (lineWins squares)).bind fun t =>
          (cellAt squares t.1).map fun m => (m, t) := by
  intro lines
  induction lines with
  | nil => rfl
  | cons t rest ih =>
    cases hc : cellAt squares t.1 with
    | none =>
      have hw : lineWins squares t = false := by unfold lineWins; rw [hc]
      simp only [winnerOfLines, hc, List.find?_cons, hw, ih]
    | some m =>
      by_cases hp : cellAt squares t.2.1 = some m ∧ cellAt squares t.2.2 = some m
      · have hw : lineWins squares t = true := by
          unfold lineWins; rw [hc]; exact decide_eq_true hp
        simp only [winnerOfLines, hc, if_pos hp, List.find?_cons, hw]
        simp [hc]
      · have hw : lineWins squares t = false := by
          unfold lineWins; rw [hc]; exact decide_eq_false hp
        simp only [winnerOfLines, hc, if_neg hp, List.find?_cons, hw, ih]

theorem calculateWinner_eq_none {squares : List Cell}
    (h : ∀ t ∈ LINES, lineWins squares t = false) :
    calculateWinner squares = none := by
  have hf : LINES.find? (lineWins squares) = none :=
    List.find?_eq_none.mpr (by intro t ht; simp [h t ht])
  show winnerOfLines squares LINES = none
  rw [winnerOfLines_eq_find, hf]
  rfl

theorem calculateWinner_none_of_ongoing {squares : List Cell}
    (h : verdict squares = Verdict.ongoing) : calculateWinner squares = none := by
  unfold verdict at h
  cases hc : calculateWinner squares with
  | none => rfl
  | some p => rw [hc] at h; exact absurd h (by simp)

/-! Claim theorems for the win detector and reset. -/

/-- C1: for every 9-cell board in which some triple of LINES has three
equal non-empty cells, calculateWinner returns a win carrying the mark
and the triple of the first such triple in the enumeration order of
LINES (the first match found by List.find? over LINES). -/
theorem calculateWinner_first_winning_line (squares : List Cell) (t : Nat × Nat × Nat)
    (hlen : squares.length = 9) (ht : t ∈ LINES) (hw : lineWins squares t = true) :
    ∃ u m, LINES.find? (lineWins squares) = some u ∧ lineWins squares u = true ∧
      cellAt squares u.1 = some m ∧ calculateWinner squares = some (m, u) := by
  have hs : (LINES.find? (lineWins squares)).isSome :=
    List.find?_isSome.mpr ⟨t, ht, hw⟩
  obtain ⟨u, hu⟩ := Option.isSome_iff_exists.mp hs
  have hwu : lineWins squares u = true := List.find?_some hu
  obtain ⟨m, hm⟩ := lineWins_cell hwu
  refine ⟨u, m, hu, hwu, hm, ?_⟩
  show winnerOfLines squares LINES = some (m, u)
  rw [winnerOfLines_eq_find, hu]
  simp [hm]

/-- Witness for C1 on a concrete board where the top row wins for X. -/
theorem calculateWinner_first_winning_line_witness :
    ∃ u m,
      LINES.find? (lineWins [some Mark.X, some Mark.X, some Mark.X, none, none, none,
        some Mark.O, some Mark.O, none]) = some u ∧
      lineWins [some Mark.X, some Mark.X, some Mark.X, none, none, none,
        some Mark.O, some Mark.O, none] u = true ∧
      cellAt [some Mark.X, some Mark.X, some Mark.X, none, none, none,
        some Mark.O, some Mark.O, none] u.1 = some m ∧
      calculateWinner [some Mark.X, some Mark.X, some Mark.X, none, none, none,
        some Mark.O, some Mark.O, none] = some (m, u) :=
  calculateWinner_first_winning_line _ (0, 1, 2) (by decide) (by decide) (by decide)

/-- C5: every fully-filled 9-cell board with no winning triple gets
the draw verdict. -/
theorem verdict_draw_of_full_no_winning_line (squares : List Cell)
    (hlen : squares.length = 9)
    (hfull : ∀ c ∈ squares, c ≠ none)
    (hnl : ∀ t ∈ LINES, lineWins squares t = false) :
    verdict squares = Verdict.draw := by
  have h1 : calculateWinner squares = none := calculateWinner_eq_none hnl
  have h2 : allFilled squares = true := by
    unfold allFilled
    rw [List.all_eq_true]
    intro c hcs
    exact decide_eq_true (hfull c hcs)
  simp [verdict, h1, h2]

/-- Witness for C5 on a concrete drawn board. -/
theorem verdict_draw_of_full_no_winning_line_witness :
    verdict [some Mark.X, some Mark.O, some Mark.X, some Mark.X, some Mark.O,
      some Mark.O, some Mark.O, some Mark.X, some Mark.X] = Verdict.draw :=
  verdict_draw_of_full_no_winning_line _ (by decide) (by decide) (by decide)

/-- C6: every 9-cell board with no winning triple and at least one
empty cell gets the ongoing verdict. -/
theorem verdict_ongoing_of_no_line_and_empty (squares : List Cell)
    (hlen : squares.length = 9)
    (hnl : ∀ t ∈ LINES, lineWins squares t = false)
    (hempty : none ∈ squares) :
    verdict squares = Verdict.ongoing := by
  have h1 : calculateWinner squares = none := calculateWinner_eq_none hnl
  cases hb : allFilled squares with
  | true =>
    exfalso
    have hx := List.all_eq_true.mp hb none hempty
    simp at hx
  | false => simp [verdict, h1, hb]

/-- Witness for C6 on the empty board. -/
theorem verdict_ongoing_of_no_line_and_empty_witness :
    verdict (List.replicate 9 none) = Verdict.ongoing :=
  verdict_ongoing_of_no_line_and_empty _ (by decide) (by decide) (by decide)

/-- C8: resetGame on any state yields exactly the initial state: nine
empty cells, X to move, verdict ongoing; no precondition. -/
theorem resetGame_yields_initialState (s : GameState) :
    resetGame s = initialState ∧
    initialState.squares = List.replicate 9 none ∧
    initialState.xIsNext = true ∧
    verdict initialState.squares = Verdict.ongoing :=
  ⟨rfl, rfl, rfl, by decide⟩

/-! Claim theorems for the controller. -/

/-- Counterexample to C2 as stated: from the concrete ongoing state
with X at 0 and 1, O at 3 and 4, X to move, clicking cell 2 is an
accepted move that produces a win verdict, yet xIsNext flips from
true to false, so currentTurn does not stay unchanged on a winning
move. -/
theorem handleSquareClick_win_still_flips_cex :
    verdict (GameState.mk [some Mark.X, some Mark.X, none, some Mark.O, some Mark.O,
      none, none, none, none] true).squares = Verdict.ongoing ∧
    cellAt (GameState.mk [some Mark.X, some Mark.X, none, some Mark.O, some Mark.O,
      none, none, none, none] true).squares 2 = none ∧
    verdict (handleSquareClick 2 (GameState.mk [some Mark.X, some Mark.X, none,
      some Mark.O, some Mark.O, none, none, none, none] true)).squares =
      Verdict.win Mark.X (0, 1, 2) ∧
    (handleSquareClick 2 (GameState.mk [some Mark.X, some Mark.X, none,
      some Mark.O, some Mark.O, none, none, none, none] true)).xIsNext = false := by
  decide

/-- C2 amended: every accepted move (index at most 8, cell empty,
verdict ongoing before the move) flips xIsNext unconditionally, also
when the updated board's verdict is a win or a draw. -/
theorem handleSquareClick_always_flips_turn (s : GameState) (i : Nat)
    (hlen : s.squares.length = 9) (hi : i ≤ 8)
    (hcell : cellAt s.squares i = none)
    (hv : verdict s.squares = Verdict.ongoing) :
    (handleSquareClick i s).xIsNext = !s.xIsNext := by
  have hw : calculateWinner s.squares = none := calculateWinner_none_of_ongoing hv
  simp [handleSquareClick, hcell, hw]

/-- Witness for the amended C2: the first click on the empty board
flips the turn from X to O. -/
theorem handleSquareClick_always_flips_turn_witness :
    (handleSquareClick 0 initialState).xIsNext = !initialState.xIsNext :=
  handleSquareClick_always_flips_turn initialState 0 (by decide) (by decide)
    (by decide) (by decide)

/-- C3: the code has no index guard. Clicking index 9 on the initial
(ongoing) state is not rejected and does not leave the state
unchanged: squares[9] is undefined, hence falsy, so the occupied-cell
check passes, the mark X is appended at index 9 (the board grows to
ten cells) and the turn flips. -/
theorem handleSquareClick_out_of_range_mutates :
    handleSquareClick 9 initialState ≠ initialState ∧
    handleSquareClick 9 initialState =
      GameState.mk (List.replicate 9 (none : Cell) ++ [some Mark.X]) false := by
  decide

/-- C4: in every 9-cell state whose verdict is a win or a draw, a
click on any index at most 8 leaves the state (hence the board)
unchanged, while resetGame returns to an ongoing verdict. -/
theorem terminal_state_locked (s : GameState) (i : Nat)
    (hlen : s.squares.length = 9) (hi : i ≤ 8)
    (hv : verdict s.squares ≠ Verdict.ongoing) :
    handleSquareClick i s = s ∧ verdict (resetGame s).squares = Verdict.ongoing := by
  refine ⟨?_, ?_⟩
  case refine_2 =>
    show verdict (List.replicate 9 none) = Verdict.ongoing
    decide
  cases hc : calculateWinner s.squares with
  | some p => simp [handleSquareClick, hc]
  | none =>
    have hfull : allFilled s.squares = true := by
      cases hb : allFilled s.squares with
      | true => rfl
      | false => exact absurd (by simp [verdict, hc, hb]) hv
    have hil : i < s.squares.length := by omega
    have hmem : s.squares[i] ∈ s.squares := List.getElem_mem hil
    have hne : s.squares[i] ≠ none := by
      have := List.all_eq_true.mp hfull _ hmem
      simpa using this
    have hsome : (cellAt s.squares i).isSome = true := by
      unfold cellAt
      rw [List.getD_eq_getElem?_getD, List.getElem?_eq_getElem hil]
      cases hx : s.squares[i] with
      | none => exact absurd hx hne
      | some m => rfl
    simp [handleSquareClick, hsome]

/-- Witness for C4: a concrete won state ignores a click on the empty
cell 5, and reset returns it to ongoing. -/
theorem terminal_state_locked_witness :
    handleSquareClick 5 (GameState.mk [some Mark.X, some Mark.X, some Mark.X,
      some Mark.O, some Mark.O, none, none, none, none] false) =
      GameState.mk [some Mark.X, some Mark.X, some Mark.X,
        some Mark.O, some Mark.O, none, none, none, none] false ∧
    verdict (resetGame (GameState.mk [some Mark.X, some Mark.X, some Mark.X,
      some Mark.O, some Mark.O, none, none, none, none] false)).squares =
      Verdict.ongoing :=
  terminal_state_locked _ 5 (by decide) (by decide) (by decide)

/-- C7: a click on an already occupied cell, repeated any number of
times, leaves the state exactly unchanged: no mark placed, no turn
switch, and the model surfaces no error at all. -/
theorem occupied_click_idempotent_noop (s : GameState) (i : Nat)
    (h : (cellAt s.squares i).isSome = true) :
    ∀ n : Nat, (handleSquareClick i)^[n] s = s := by
  have h1 : handleSquareClick i s = s := by simp [handleSquareClick, h]
  intro n
  induction n with
  | zero => rfl
  | succ n ih => rw [Function.iterate_succ_apply, h1, ih]

/-- Witness for C7: clicking the occupied cell 0 twice changes
nothing. -/
theorem occupied_click_idempotent_noop_witness :
    (handleSquareClick 0)^[2] (GameState.mk [some Mark.X, none, none, none, none,
      none, none, none, none] false) =
      GameState.mk [some Mark.X, none, none, none, none,
        none, none, none, none] false :=
  occupied_click_idempotent_noop _ 0 (by decide) 2

/-- C9: an accepted move at index i on a 9-cell board keeps the board
exactly 9 cells long, writes the current turn's mark at i, and leaves
every cell at an index different from i unchanged. -/
theorem accepted_move_frame (s : GameState) (i : Nat)
    (hlen : s.squares.length = 9) (hi : i ≤ 8)
    (hcell : cellAt s.squares i = none)
    (hv : verdict s.squares = Verdict.ongoing) :
    (handleSquareClick i s).squares.length = 9 ∧
    cellAt (handleSquareClick i s).squares i = currentMark s.xIsNext ∧
    ∀ j, j ≠ i → cellAt (handleSquareClick i s).squares j = cellAt s.squares j := by
  have hw : calculateWinner s.squares = none := calculateWinner_none_of_ongoing hv
  have hil : i < s.squares.length := by omega
  have hres : (handleSquareClick i s).squares =
      s.squares.set i (currentMark s.xIsNext) := by
    simp [handleSquareClick, hcell, hw, jsSet, hil]
  refine ⟨?_, ?_, ?_⟩
  · rw [hres, List.length_set, hlen]
  · rw [hres]
    unfold cellAt
    rw [List.getD_eq_getElem?_getD, List.getElem?_set_self hil]
    rfl
  · intro j hj
    rw [hres]
    unfold cellAt
    rw [List.getD_eq_getElem?_getD, List.getD_eq_getElem?_getD,
      List.getElem?_set_ne (by omega)]

/-- Witness for C9: the first click at cell 4 of the empty board. -/
theorem accepted_move_frame_witness :
    (handleSquareClick 4 initialState).squares.length = 9 ∧
    cellAt (handleSquareClick 4 initialState).squares 4 =
      currentMark initialState.xIsNext ∧
    ∀ j, j ≠ 4 → cellAt (handleSquareClick 4 initialState).squares j =
      cellAt initialState.squares j :=
  accepted_move_frame initialState 4 (by decide) (by decide) (by decide) (by decide)

/-! The turn-count invariant over reachable states. -/

theorem countMark_set_of_empty (m : Mark) (l : List Cell) (i : Nat) (v : Cell)
    (hil : i < l.length) (hnil : l[i] = none) :
    countMark m (l.set i v) = countMark m l + (if v = some m then 1 else 0) := by
  unfold countMark
  rw [List.countP_set _ l i v hil, hnil]
  simp

theorem reachable_inv {s : GameState} (h : Reachable s) :
    s.squares.length = 9 ∧
    ((countMark Mark.X s.squares : Int) - (countMark Mark.O s.squares : Int) =
      if s.xIsNext then 0 else 1) := by
  induction h with
  | init => exact ⟨by decide, by decide⟩
  | @move i hi s hr ih =>
    obtain ⟨hlen, hcnt⟩ := ih
    cases hg : ((cellAt s.squares i).isSome || (calculateWinner s.squares).isSome) with
    | true =>
      have hid : handleSquareClick i s = s := by simp [handleSquareClick, hg]
      rw [hid]
      exact ⟨hlen, hcnt⟩
    | false =>
      obtain ⟨ha, _hb⟩ := Bool.or_eq_false_iff.mp hg
      have hil : i < s.squares.length := by omega
      have hnil : s.squares[i] = none := by
        cases hx : cellAt s.squares i with
        | some m => rw [hx] at ha; exact absurd ha (by simp)
        | none =>
          have hy := hx
          unfold cellAt at hy
          rw [List.getD_eq_getElem?_getD, List.getElem?_eq_getElem hil] at hy
          simpa using hy
      have hres : handleSquareClick i s =
          GameState.mk (s.squares.set i (currentMark s.xIsNext)) (!s.xIsNext) := by
        simp [handleSquareClick, hg, jsSet, hil]
      rw [hres]
      refine ⟨?_, ?_⟩
      · show (s.squares.set i (currentMark s.xIsNext)).length = 9
        rw [List.length_set]
        exact hlen
      · show (countMark Mark.X (s.squares.set i (currentMark s.xIsNext)) : Int) -
          (countMark Mark.O (s.squares.set i (currentMark s.xIsNext)) : Int) =
          if (!s.xIsNext) then 0 else 1
        rw [countMark_set_of_empty Mark.X _ i _ hil hnil,
          countMark_set_of_empty Mark.O _ i _ hil hnil]
        cases hxn : s.xIsNext with
        | true =>
          rw [hxn] at hcnt
          simp only [if_pos] at hcnt
          simp only [currentMark, if_pos]
          push_cast
          simp
          omega
        | false =>
          rw [hxn] at hcnt
          simp at hcnt
          simp only [currentMark]
          push_cast
          simp
          omega
  | @reset s hr ih =>
    have hid : resetGame s = initialState := rfl
    rw [hid]
    exact ⟨by decide, by decide⟩

/-- C10: in every state reachable from the initial state via clicks
with indices in the range 0 to 8 and resets, the number of X cells
minus the number of O cells is 0 when xIsNext is true (X to move) and
1 when xIsNext is false (O to move). -/
theorem reachable_turn_count (s : GameState) (h : Reachable s) :
    (countMark Mark.X s.squares : Int) - (countMark Mark.O s.squares : Int) =
      if s.xIsNext then 0 else 1 :=
  (reachable_inv h).2

/-- Witness for C10 at the reachable state after one click at cell 0:
one X, zero O, O to move. -/
theorem reachable_turn_count_witness :
    (countMark Mark.X (handleSquareClick 0 initialState).squares : Int) -
      (countMark Mark.O (handleSquareClick 0 initialState).squares : Int) =
      if (handleSquareClick 0 initialState).xIsNext then 0 else 1 :=
  reachable_turn_count _ (Reachable.move 0 (by decide) Reachable.init)

end TicTacToe
